import Mathlib

/-!
Verification of the tora-db table engine (src/lib/src/lib.rs, src/lib/src/engine.rs).

The Rust code is shallowly embedded: each public method of `Db` becomes a Lean
function on an explicit `Db` state.  Rust methods whose bodies contain an
unchecked slice/`Vec` indexing or `Vec::remove` call (which panic when out of
bounds) are embedded with result type `Option _`, where `none` models a panic;
methods whose bodies cannot panic are embedded as total functions.
`f32`/`f64` payloads are carried as their raw bit patterns (no claim inspects
the numeric value of a float).  `Index` (Rust `u32`) is modelled as `Nat`:
indices are only compared against and used on in-memory sequence lengths.
-/

namespace Tora

/-- Rust `Type` (lib.rs): scalar type tags. -/
inductive Ty where
  | Int
  | Long
  | Float
  | Double
  | String
deriving DecidableEq, Repr

/-- Rust `Data` (lib.rs): tagged scalar values, plus the null marker.
Float payloads are raw bit patterns. -/
inductive Data where
  | int (v : Int)
  | long (v : Int)
  | float (bits : Nat)
  | double (bits : Nat)
  | string (s : String)
  | null
deriving DecidableEq, Repr

/-- Rust `Data::get_type` (lib.rs lines 66-77). -/
def Data.get_type : Data → Ty
  | .int _ => .Int
  | .long _ => .Long
  | .float _ => .Float
  | .double _ => .Double
  | .string _ => .String
  | .null => .String

/-- Rust `Column` (lib.rs): a named, single-type schema slot. -/
structure Column where
  name : String
  ty_restriction : Ty
deriving DecidableEq, Repr

/-- Rust `Id` (lib.rs): a column identifier, by name or by index. -/
inductive Id where
  | Name (s : String)
  | Index (i : Nat)
deriving DecidableEq, Repr

/-- Rust `Instruction` (lib.rs): one database operation as a value. -/
inductive Instruction where
  | DeleteColumn (id : Id)
  | DeleteRow (i : Nat)
  | AppendRow (data : List Data)
  | AppendColumn (name : String) (ty : Ty)
  | Fetch (i_data i_row : Nat)
deriving DecidableEq, Repr

/-- Rust `Row = Vec<Data>` (engine.rs line 11). -/
abbrev Row := List Data

/-- Rust `QueryError` (engine.rs lines 17-37). -/
inductive QueryError where
  | IndexOutOfBounds
  | DataOutOfBounds
  | NotFound
  | DataMismatch
  | TypeMismatch (expected actual : Ty)
deriving DecidableEq, Repr

/-- Rust `QueryResponse` (engine.rs lines 40-58). -/
inductive QueryResponse where
  | Ok (i : Nat)
  | ModifiedColumns (ids : List Id)
  | ModifiedRows (idxs : List Nat)
  | OkSingle (d : Data)
deriving DecidableEq, Repr

/-- Rust `QueryResult = Result<QueryResponse, QueryError>` (engine.rs line 14). -/
abbrev QueryResult := Except QueryError QueryResponse

/-- Rust `Db` (engine.rs lines 63-67). -/
structure Db where
  columns : List Column
  rows : List Row
deriving DecidableEq, Repr

/-- Rust `Vec::remove(i)`: removes and returns the rest when `i` is in
bounds, panics (`none`) otherwise. -/
def vecRemove (l : List α) (i : Nat) : Option (List α) :=
  if i < l.length then some (l.eraseIdx i) else none

namespace Db

/-- The `for (i, col) in self.columns.iter().enumerate()` scan of
`delete_column_by_name` (engine.rs lines 74-83): index of the first column
whose name equals `name`, counting from `start`. -/
def findColumn (cols : List Column) (name : String) (start : Nat) : Option Nat :=
  match cols with
  | [] => none
  | col :: rest =>
    if col.name = name then some start else findColumn rest name (start + 1)

/-- Rust `Db::delete_column_by_name` (engine.rs lines 73-85).
`none` models the panic of `row.remove(i)` on a row shorter than `i+1`. -/
def delete_column_by_name (db : Db) (name : String) : Option (Db × QueryResult) :=
  match findColumn db.columns name 0 with
  | none => some (db, .error .NotFound)
  | some i =>
    match db.rows.mapM (fun row => vecRemove row i) with
    | none => none
    | some rows' => some (⟨db.columns.eraseIdx i, rows'⟩, .ok (.Ok i))

/-- Rust `Db::delete_column_by_index` (engine.rs lines 90-100).
`none` models the panic of `row.remove(index)` on a short row. -/
def delete_column_by_index (db : Db) (index : Nat) : Option (Db × QueryResult) :=
  if index < db.columns.length then
    match db.rows.mapM (fun row => vecRemove row index) with
    | none => none
    | some rows' => some (⟨db.columns.eraseIdx index, rows'⟩, .ok (.Ok index))
  else some (db, .error .IndexOutOfBounds)

/-- Rust `Db::delete_row_by_index` (engine.rs lines 103-109).  The single
`Vec::remove` is guarded by the bounds check, so this is total. -/
def delete_row_by_index (db : Db) (index : Nat) : Db × QueryResult :=
  if index < db.rows.length then
    (⟨db.columns, db.rows.eraseIdx index⟩, .ok (.Ok index))
  else (db, .error .IndexOutOfBounds)

/-- Rust `Db::append_column_default` (engine.rs lines 121-128): push the
column, push the default onto every row, return `columns.len() - 1`. -/
def append_column_default (db : Db) (name : String) (ty_restrict : Ty)
    (default : Data) : Db × QueryResult :=
  let columns := db.columns ++ [⟨name, ty_restrict⟩]
  (⟨columns, db.rows.map (fun row => row ++ [default])⟩,
   .ok (.Ok (columns.length - 1)))

/-- Rust `Db::append_column` (engine.rs lines 114-116). -/
def append_column (db : Db) (name : String) (ty_restrict : Ty) : Db × QueryResult :=
  db.append_column_default name ty_restrict .null

/-- The `for (i, val) in data.iter().enumerate()` loop of `append_row`
(engine.rs lines 135-141): first `(restriction, actual)` type mismatch in
column order, `none` when every value fits.  Called only when the two lists
have equal length, so the paired recursion matches the indexed loop. -/
def firstTypeMismatch : List Column → List Data → Option (Ty × Ty)
  | col :: cols, val :: vals =>
    if col.ty_restriction = val.get_type then firstTypeMismatch cols vals
    else some (col.ty_restriction, val.get_type)
  | _, _ => none

/-- Rust `Db::append_row` (engine.rs lines 131-144). -/
def append_row (db : Db) (data : Row) : Db × QueryResult :=
  if data.length ≠ db.columns.length then (db, .error .DataMismatch)
  else
    match firstTypeMismatch db.columns data with
    | some (expected, actual) => (db, .error (.TypeMismatch expected actual))
    | none =>
      let rows := db.rows ++ [data]
      (⟨db.columns, rows⟩, .ok (.Ok (rows.length - 1)))

/-- Rust `Db::fetch_value` (engine.rs lines 147-154): one explicit bounds
check of `data_index` against the ROW count, then the unchecked indexings
`self.rows[row_index]` and `row[data_index]`; `none` models their panic. -/
def fetch_value (db : Db) (data_index row_index : Nat) : Option (Db × QueryResult) :=
  if db.rows.length ≤ data_index then some (db, .error .DataOutOfBounds)
  else
    match db.rows[row_index]? with
    | none => none
    | some row =>
      match row[data_index]? with
      | none => none
      | some data => some (db, .ok (.OkSingle data))

/-- Rust `Db::query` (engine.rs lines 157-168): uniform dispatch. -/
def query (db : Db) (instruction : Instruction) : Option (Db × QueryResult) :=
  match instruction with
  | .DeleteColumn (.Name name) => db.delete_column_by_name name
  | .DeleteColumn (.Index i) => db.delete_column_by_index i
  | .DeleteRow index => some (db.delete_row_by_index index)
  | .AppendColumn name ty => some (db.append_column name ty)
  | .AppendRow data => some (db.append_row data)
  | .Fetch i_data i_row => db.fetch_value i_data i_row

end Db

/-- Every row has exactly one value per column (the shape invariant). -/
def shapeOk (db : Db) : Prop :=
  ∀ row ∈ db.rows, row.length = db.columns.length

instance : DecidablePred shapeOk := fun db =>
  inferInstanceAs (Decidable (∀ row ∈ db.rows, row.length = db.columns.length))

/-- One invocation of a public `Db` operation (the eight methods of §4.3). -/
inductive Op where
  | appendColumn (name : String) (ty : Ty)
  | appendColumnDefault (name : String) (ty : Ty) (d : Data)
  | appendRow (data : Row)
  | deleteColumnByName (name : String)
  | deleteColumnByIndex (i : Nat)
  | deleteRowByIndex (i : Nat)
  | fetchValue (a b : Nat)
  | queryOp (ins : Instruction)

/-- Apply one public operation; `none` models a panic inside the call. -/
def applyOp (db : Db) : Op → Option (Db × QueryResult)
  | .appendColumn name ty => some (db.append_column name ty)
  | .appendColumnDefault name ty d => some (db.append_column_default name ty d)
  | .appendRow data => some (db.append_row data)
  | .deleteColumnByName name => db.delete_column_by_name name
  | .deleteColumnByIndex i => db.delete_column_by_index i
  | .deleteRowByIndex i => some (db.delete_row_by_index i)
  | .fetchValue a b => db.fetch_value a b
  | .queryOp ins => db.query ins

/-- Table states reachable from the empty table by public operations that
return (rather than abort the process). -/
inductive Reachable : Db → Prop where
  | empty : Reachable ⟨[], []⟩
  | step {db db' : Db} {op : Op} {r : QueryResult} :
      Reachable db → applyOp db op = some (db', r) → Reachable db'

/-- The table of the demonstration program: one column `Name : String`,
one row `["John"]`. -/
def johnDb : Db :=
  ⟨[⟨"Name", Ty.String⟩], [[Data.string "John"]]⟩

/-- The table after the demonstration program appends the column only. -/
def nameOnlyDb : Db :=
  ⟨[⟨"Name", Ty.String⟩], []⟩

/-- A table with one `Int`-restricted column and no rows. -/
def intColDb : Db :=
  ⟨[⟨"A", Ty.Int⟩], []⟩

/-- A table with two columns that share the name `X`. -/
def dupXDb : Db :=
  ⟨[⟨"X", Ty.String⟩, ⟨"X", Ty.Int⟩], []⟩

/-! ### Helper lemmas about the embedded primitives -/

theorem vecRemove_of_lt {α : Type _} {l : List α} {i : Nat} (h : i < l.length) :
    vecRemove l i = some (l.eraseIdx i) := by
  simp [vecRemove, h]

theorem vecRemove_eq_some {α : Type _} {l l' : List α} {i : Nat}
    (h : vecRemove l i = some l') : i < l.length ∧ l' = l.eraseIdx i := by
  unfold vecRemove at h
  split at h
  · exact ⟨by assumption, (Option.some.inj h).symm⟩
  · exact absurd h (by simp)

theorem mapM_vecRemove_eq_some {α : Type _} {rows rows' : List (List α)} {i : Nat}
    (h : rows.mapM (fun r => vecRemove r i) = some rows') :
    rows' = rows.map (fun r => r.eraseIdx i) ∧ ∀ r ∈ rows, i < r.length := by
  induction rows generalizing rows' with
  | nil =>
    simp only [List.mapM_nil, Option.pure_def, Option.some.injEq] at h
    simp [← h]
  | cons r rs ih =>
    rw [List.mapM_cons] at h
    cases hr : vecRemove r i with
    | none => rw [hr] at h; simp at h
    | some r' =>
    rw [hr] at h
    cases hrs : rs.mapM (fun r => vecRemove r i) with
    | none => rw [hrs] at h; simp at h
    | some rest =>
    rw [hrs] at h
    obtain ⟨hlt, rfl⟩ := vecRemove_eq_some hr
    obtain ⟨rfl, hall⟩ := ih hrs
    simp only [Option.bind_eq_bind, Option.some_bind, Option.pure_def,
      Option.some.injEq] at h
    subst h
    refine ⟨rfl, ?_⟩
    intro x hx
    rcases List.mem_cons.mp hx with rfl | hx
    · exact hlt
    · exact hall x hx

theorem mapM_vecRemove_of {α : Type _} {rows : List (List α)} {i : Nat}
    (h : ∀ r ∈ rows, i < r.length) :
    rows.mapM (fun r => vecRemove r i) = some (rows.map (fun r => r.eraseIdx i)) := by
  induction rows with
  | nil => rfl
  | cons r rs ih =>
    rw [List.mapM_cons, vecRemove_of_lt (h r (by simp)),
      ih (fun x hx => h x (by simp [hx]))]
    rfl

theorem findColumn_eq_none {cols : List Column} {name : String} (start : Nat)
    (h : ∀ c ∈ cols, c.name ≠ name) : Db.findColumn cols name start = none := by
  induction cols generalizing start with
  | nil => rfl
  | cons c cs ih =>
    simp only [Db.findColumn]
    rw [if_neg (h c (by simp))]
    exact ih _ (fun x hx => h x (by simp [hx]))

theorem findColumn_eq_some {cols : List Column} {name : String} {i : Nat}
    (start : Nat) (hi : i < cols.length)
    (hname : (cols[i]).name = name)
    (hfirst : ∀ j, (hj : j < i) → (cols[j]).name ≠ name) :
    Db.findColumn cols name start = some (start + i) := by
  induction cols generalizing start i with
  | nil => exact absurd hi (by simp)
  | cons c cs ih =>
    cases i with
    | zero =>
      simp only [List.getElem_cons_zero] at hname
      simp only [Db.findColumn]
      rw [if_pos hname]
      simp
    | succ i' =>
      simp only [Db.findColumn]
      rw [if_neg]
      · have hi' : i' < cs.length := by simpa using Nat.lt_of_succ_lt_succ hi
        have heq := ih (start + 1) hi'
          (by simpa using hname)
          (fun j hj => by
            have := hfirst (j + 1) (Nat.succ_lt_succ hj)
            simpa using this)
        rw [heq]
        congr 1
        omega
      · have := hfirst 0 (Nat.succ_pos i')
        simpa using this

theorem findColumn_bound {cols : List Column} {name : String} {start i : Nat}
    (h : Db.findColumn cols name start = some i) :
    start ≤ i ∧ i - start < cols.length := by
  induction cols generalizing start with
  | nil => exact absurd h (by simp [Db.findColumn])
  | cons c cs ih =>
    simp only [Db.findColumn] at h
    split at h
    · cases h
      simp
    · have := ih h
      simp only [List.length_cons]
      omega

theorem firstTypeMismatch_eq_none {cols : List Column} {vals : List Data}
    (h : ∀ (j : Nat) (c : Column) (v : Data), cols[j]? = some c → vals[j]? = some v →
        c.ty_restriction = v.get_type) :
    Db.firstTypeMismatch cols vals = none := by
  induction cols generalizing vals with
  | nil => rfl
  | cons c cs ih =>
    cases vals with
    | nil => rfl
    | cons v vs =>
      simp only [Db.firstTypeMismatch]
      rw [if_pos (h 0 c v (by simp) (by simp))]
      exact ih (fun j c' v' hc hv => h (j + 1) c' v' (by simpa using hc) (by simpa using hv))

theorem firstTypeMismatch_eq_some {cols : List Column} {vals : List Data} {i : Nat}
    {col : Column} {val : Data}
    (hc : cols[i]? = some col) (hv : vals[i]? = some val)
    (hne : col.ty_restriction ≠ val.get_type)
    (hfirst : ∀ (j : Nat), j < i → ∀ (c : Column) (v : Data),
        cols[j]? = some c → vals[j]? = some v →
        c.ty_restriction = v.get_type) :
    Db.firstTypeMismatch cols vals = some (col.ty_restriction, val.get_type) := by
  induction i generalizing cols vals with
  | zero =>
    cases cols with
    | nil => exact absurd hc (by simp)
    | cons c cs =>
      cases vals with
      | nil => exact absurd hv (by simp)
      | cons v vs =>
        simp only [List.getElem?_cons_zero, Option.some.injEq] at hc hv
        subst hc; subst hv
        simp only [Db.firstTypeMismatch]
        rw [if_neg hne]
  | succ i' ih =>
    cases cols with
    | nil => exact absurd hc (by simp)
    | cons c cs =>
      cases vals with
      | nil => exact absurd hv (by simp)
      | cons v vs =>
        simp only [Db.firstTypeMismatch]
        rw [if_pos (hfirst 0 (Nat.succ_pos i') c v (by simp) (by simp))]
        exact ih (by simpa using hc) (by simpa using hv)
          (fun j hj c' v' hc' hv' =>
            hfirst (j + 1) (Nat.succ_lt_succ hj) c' v' (by simpa using hc')
              (by simpa using hv'))

/-- `fetch_value` never changes the table state when it returns. -/
theorem fetch_value_fst {db db' : Db} {a b : Nat} {r : QueryResult}
    (h : db.fetch_value a b = some (db', r)) : db' = db := by
  unfold Db.fetch_value at h
  split at h
  · cases h; rfl
  · split at h
    · cases h
    · split at h
      · cases h
      · cases h; rfl

/-! ### Shape-invariant preservation, one lemma per operation -/

theorem shapeOk_append_column_default {db : Db} (hdb : shapeOk db)
    (name : String) (ty : Ty) (d : Data) :
    shapeOk (db.append_column_default name ty d).1 := by
  intro row hrow
  simp only [Db.append_column_default, List.mem_map] at hrow
  obtain ⟨r0, hr0, rfl⟩ := hrow
  simp [Db.append_column_default, hdb r0 hr0]

theorem shapeOk_append_column {db : Db} (hdb : shapeOk db)
    (name : String) (ty : Ty) :
    shapeOk (db.append_column name ty).1 :=
  shapeOk_append_column_default hdb name ty .null

theorem shapeOk_append_row {db : Db} (hdb : shapeOk db) (data : Row) :
    shapeOk (db.append_row data).1 := by
  unfold Db.append_row
  split
  · exact hdb
  · next hlen =>
    split
    · exact hdb
    · show shapeOk ⟨db.columns, db.rows ++ [data]⟩
      intro row hrow
      simp only [List.mem_append, List.mem_singleton] at hrow
      rcases hrow with h | rfl
      · exact hdb row h
      · show row.length = db.columns.length
        omega

theorem shapeOk_delete_column_by_name {db db' : Db} {r : QueryResult} {name : String}
    (hdb : shapeOk db) (h : db.delete_column_by_name name = some (db', r)) :
    shapeOk db' := by
  unfold Db.delete_column_by_name at h
  split at h
  · cases h; exact hdb
  · next i hfind =>
    split at h
    · cases h
    · next rows' hmap =>
      cases h
      obtain ⟨rfl, hlt⟩ := mapM_vecRemove_eq_some hmap
      have hi : i < db.columns.length := by
        have := findColumn_bound hfind
        omega
      intro row hrow
      simp only [List.mem_map] at hrow
      obtain ⟨r0, hr0, rfl⟩ := hrow
      rw [List.length_eraseIdx, List.length_eraseIdx, if_pos (hlt r0 hr0), if_pos hi,
        hdb r0 hr0]

theorem shapeOk_delete_column_by_index {db db' : Db} {r : QueryResult} {index : Nat}
    (hdb : shapeOk db) (h : db.delete_column_by_index index = some (db', r)) :
    shapeOk db' := by
  unfold Db.delete_column_by_index at h
  split at h
  · next hi =>
    split at h
    · cases h
    · next rows' hmap =>
      cases h
      obtain ⟨rfl, hlt⟩ := mapM_vecRemove_eq_some hmap
      intro row hrow
      simp only [List.mem_map] at hrow
      obtain ⟨r0, hr0, rfl⟩ := hrow
      rw [List.length_eraseIdx, List.length_eraseIdx, if_pos (hlt r0 hr0), if_pos hi,
        hdb r0 hr0]
  · cases h; exact hdb

theorem shapeOk_delete_row_by_index {db : Db} (hdb : shapeOk db) (index : Nat) :
    shapeOk (db.delete_row_by_index index).1 := by
  unfold Db.delete_row_by_index
  split
  · intro row hrow
    exact hdb row ((List.eraseIdx_sublist _ _).subset hrow)
  · exact hdb

theorem shapeOk_query {db db' : Db} {r : QueryResult} {ins : Instruction}
    (hdb : shapeOk db) (h : db.query ins = some (db', r)) : shapeOk db' := by
  cases ins with
  | DeleteColumn id =>
    cases id with
    | Name n => exact shapeOk_delete_column_by_name hdb h
    | Index i => exact shapeOk_delete_column_by_index hdb h
  | DeleteRow i =>
    have h' : db.delete_row_by_index i = (db', r) := by
      injection h
    have := shapeOk_delete_row_by_index hdb i
    rw [h'] at this
    exact this
  | AppendColumn name ty =>
    have h' : db.append_column name ty = (db', r) := by
      injection h
    have := shapeOk_append_column hdb name ty
    rw [h'] at this
    exact this
  | AppendRow data =>
    have h' : db.append_row data = (db', r) := by
      injection h
    have := shapeOk_append_row hdb data
    rw [h'] at this
    exact this
  | Fetch a b =>
    rw [fetch_value_fst h]
    exact hdb

theorem shapeOk_applyOp {db db' : Db} {op : Op} {r : QueryResult}
    (hdb : shapeOk db) (h : applyOp db op = some (db', r)) : shapeOk db' := by
  cases op with
  | appendColumn name ty =>
    have h' : db.append_column name ty = (db', r) := by injection h
    have := shapeOk_append_column hdb name ty
    rw [h'] at this; exact this
  | appendColumnDefault name ty d =>
    have h' : db.append_column_default name ty d = (db', r) := by injection h
    have := shapeOk_append_column_default hdb name ty d
    rw [h'] at this; exact this
  | appendRow data =>
    have h' : db.append_row data = (db', r) := by injection h
    have := shapeOk_append_row hdb data
    rw [h'] at this; exact this
  | deleteColumnByName name => exact shapeOk_delete_column_by_name hdb h
  | deleteColumnByIndex i => exact shapeOk_delete_column_by_index hdb h
  | deleteRowByIndex i =>
    have h' : db.delete_row_by_index i = (db', r) := by injection h
    have := shapeOk_delete_row_by_index hdb i
    rw [h'] at this; exact this
  | fetchValue a b =>
    rw [fetch_value_fst h]
    exact hdb
  | queryOp ins => exact shapeOk_query hdb h

/-! ### Failed operations leave the state untouched, one lemma per operation -/

theorem delete_column_by_name_err {db db' : Db} {name : String} {e : QueryError}
    (h : db.delete_column_by_name name = some (db', .error e)) : db' = db := by
  unfold Db.delete_column_by_name at h
  split at h
  · cases h; rfl
  · split at h
    · cases h
    · cases h

theorem delete_column_by_index_err {db db' : Db} {index : Nat} {e : QueryError}
    (h : db.delete_column_by_index index = some (db', .error e)) : db' = db := by
  unfold Db.delete_column_by_index at h
  split at h
  · split at h
    · cases h
    · cases h
  · cases h; rfl

theorem delete_row_by_index_err {db db' : Db} {index : Nat} {e : QueryError}
    (h : db.delete_row_by_index index = (db', .error e)) : db' = db := by
  unfold Db.delete_row_by_index at h
  split at h
  · cases h
  · cases h; rfl

theorem append_column_default_err {db db' : Db} {name : String} {ty : Ty} {d : Data}
    {e : QueryError} (h : db.append_column_default name ty d = (db', .error e)) :
    db' = db := by
  cases h

theorem append_row_err {db db' : Db} {data : Row} {e : QueryError}
    (h : db.append_row data = (db', .error e)) : db' = db := by
  unfold Db.append_row at h
  split at h
  · cases h; rfl
  · split at h
    · cases h; rfl
    · cases h

theorem fetch_value_err {db db' : Db} {a b : Nat} {e : QueryError}
    (h : db.fetch_value a b = some (db', .error e)) : db' = db :=
  fetch_value_fst h

theorem query_err {db db' : Db} {ins : Instruction} {e : QueryError}
    (h : db.query ins = some (db', .error e)) : db' = db := by
  cases ins with
  | DeleteColumn id =>
    cases id with
    | Name n => exact delete_column_by_name_err h
    | Index i => exact delete_column_by_index_err h
  | DeleteRow i => exact delete_row_by_index_err (by injection h)
  | AppendColumn name ty => exact append_column_default_err (by injection h)
  | AppendRow data => exact append_row_err (by injection h)
  | Fetch a b => exact fetch_value_err h

/-! ### Claim theorems -/

/-- C1: the spec requires every public operation — `fetch_value` for every
pair of indices included — to map invalid caller input to a typed error and
never abort.  The code violates this: on the demonstration table (one
column, one row) `fetch_value(0, 1)` passes the single bounds check
(`0 < 1` row) and then evaluates `self.rows[1]` unchecked, which panics;
`none` is the embedded panic. -/
theorem C1_fetch_value_panics : johnDb.fetch_value 0 1 = none := by rfl

/-- C2: `fetch_value` rejects with `DataOutOfBounds` whenever its first
argument is out of range against the ROW count; otherwise it indexes the
row sequence with the second argument and that row's value sequence with
the first argument and returns the value found.  On the `[Name:Text]` table
with one row `["John"]`, `fetch_value(0,0)` returns `"John"` and
`fetch_value(1,0)` fails with `DataOutOfBounds`. -/
theorem C2_fetch_value_contract :
    (∀ (db : Db) (a b : Nat), db.rows.length ≤ a →
        db.fetch_value a b = some (db, .error .DataOutOfBounds))
    ∧ (∀ (db : Db) (a b : Nat) (row : Row) (v : Data), a < db.rows.length →
        db.rows[b]? = some row → row[a]? = some v →
        db.fetch_value a b = some (db, .ok (.OkSingle v)))
    ∧ johnDb.fetch_value 0 0 = some (johnDb, .ok (.OkSingle (.string "John")))
    ∧ johnDb.fetch_value 1 0 = some (johnDb, .error .DataOutOfBounds) := by
  refine ⟨?_, ?_, by rfl, by rfl⟩
  · intro db a b h
    unfold Db.fetch_value
    rw [if_pos h]
  · intro db a b row v ha hb hv
    unfold Db.fetch_value
    rw [if_neg (by omega), hb]
    simp [hv]

/-- Instantiation of C2 at the demonstration table. -/
theorem C2_witness :
    (0 < johnDb.rows.length
      ∧ johnDb.rows[(0 : Nat)]? = some [Data.string "John"]
      ∧ [Data.string "John"][(0 : Nat)]? = some (Data.string "John"))
    ∧ johnDb.fetch_value 0 0 = some (johnDb, .ok (.OkSingle (.string "John"))) :=
  ⟨⟨by decide, by rfl, by rfl⟩,
   C2_fetch_value_contract.2.1 johnDb 0 0 [Data.string "John"] (Data.string "John")
     (by decide) (by rfl) (by rfl)⟩

/-- C3: every table reachable from the empty table through the public
operations satisfies the shape invariant — each row is exactly as long as
the column list.  A `Reachable.step` records any returning call, error
results included, so failed operations are covered as well. -/
theorem C3_shape_invariant (db : Db) (h : Reachable db) : shapeOk db := by
  induction h with
  | empty => intro row hrow; cases hrow
  | step hre happ ih => exact shapeOk_applyOp ih happ

/-- Instantiation of C3 at the demonstration table, reached by appending the
`Name` column and then the `["John"]` row. -/
theorem C3_witness : shapeOk johnDb :=
  C3_shape_invariant johnDb
    (@Reachable.step nameOnlyDb johnDb (Op.appendRow [Data.string "John"])
      (.ok (.Ok 0))
      (@Reachable.step ⟨[], []⟩ nameOnlyDb (Op.appendColumn "Name" Ty.String)
        (.ok (.Ok 0)) Reachable.empty (by rfl))
      (by rfl))

/-- C4: `append_row` fails with `DataMismatch` exactly when the value count
differs from the column count (hence never `TypeMismatch` in that case,
whatever the content); with matching counts it fails with
`TypeMismatch(expected, actual)` at the leftmost mismatching position,
and when every value fits it appends the row and returns its index. -/
theorem C4_append_row_validation :
    (∀ (db : Db) (data : Row), data.length ≠ db.columns.length →
        db.append_row data = (db, .error .DataMismatch))
    ∧ (∀ (db : Db) (data : Row) (i : Nat) (col : Column) (val : Data),
        data.length = db.columns.length →
        db.columns[i]? = some col → data[i]? = some val →
        col.ty_restriction ≠ val.get_type →
        (∀ (j : Nat), j < i → ∀ (c : Column) (v : Data),
            db.columns[j]? = some c → data[j]? = some v →
            c.ty_restriction = v.get_type) →
        db.append_row data =
          (db, .error (.TypeMismatch col.ty_restriction val.get_type)))
    ∧ (∀ (db : Db) (data : Row),
        data.length = db.columns.length →
        (∀ (j : Nat) (c : Column) (v : Data),
            db.columns[j]? = some c → data[j]? = some v →
            c.ty_restriction = v.get_type) →
        db.append_row data =
          (⟨db.columns, db.rows ++ [data]⟩, .ok (.Ok db.rows.length))) := by
  refine ⟨?_, ?_, ?_⟩
  · intro db data h
    unfold Db.append_row
    rw [if_pos h]
  · intro db data i col val hlen hc hv hne hfirst
    unfold Db.append_row
    rw [if_neg (by omega), firstTypeMismatch_eq_some hc hv hne hfirst]
  · intro db data hlen hall
    unfold Db.append_row
    rw [if_neg (by omega), firstTypeMismatch_eq_none hall]
    simp

/-- Instantiation of C4: appending `[Text "x"]` to a single `Int` column
fails with `TypeMismatch(Int, Text)`. -/
theorem C4_witness :
    ([Data.string "x"].length = intColDb.columns.length
      ∧ intColDb.columns[(0 : Nat)]? = some ⟨"A", Ty.Int⟩
      ∧ [Data.string "x"][(0 : Nat)]? = some (Data.string "x")
      ∧ Ty.Int ≠ Ty.String)
    ∧ intColDb.append_row [Data.string "x"]
        = (intColDb, .error (.TypeMismatch .Int .String)) :=
  ⟨⟨by rfl, by rfl, by rfl, by decide⟩,
   C4_append_row_validation.2.1 intColDb [Data.string "x"] 0 ⟨"A", Ty.Int⟩
     (Data.string "x") (by rfl) (by rfl) (by rfl) (by decide)
     (fun j hj => absurd hj (Nat.not_lt_zero j))⟩

/-- C5: failed operations are all-or-nothing no-ops — whenever a public
operation returns an error, the returned table state has exactly the
column sequence and row sequence it had before the call. -/
theorem C5_atomicity (db db' : Db) (op : Op) (e : QueryError)
    (h : applyOp db op = some (db', .error e)) : db' = db := by
  cases op with
  | appendColumn name ty => exact append_column_default_err (by injection h)
  | appendColumnDefault name ty d => exact append_column_default_err (by injection h)
  | appendRow data => exact append_row_err (by injection h)
  | deleteColumnByName name => exact delete_column_by_name_err h
  | deleteColumnByIndex i => exact delete_column_by_index_err h
  | deleteRowByIndex i => exact delete_row_by_index_err (by injection h)
  | fetchValue a b => exact fetch_value_err h
  | queryOp ins => exact query_err h

/-- Instantiation of C5: a mismatched `append_row` returns `DataMismatch`
and leaves the demonstration table unchanged. -/
theorem C5_witness :
    applyOp johnDb (Op.appendRow []) = some (johnDb, .error .DataMismatch)
      ∧ johnDb = johnDb :=
  ⟨by rfl, C5_atomicity johnDb johnDb (Op.appendRow []) .DataMismatch (by rfl)⟩

/-- C6: `append_column_default` succeeds on every table and every name —
duplicate names included: the column is appended at the end of the schema,
the given default is appended at the new last position of every existing
row, and the returned index is the previous column count; `append_column`
is the same call with the null marker as default. -/
theorem C6_append_column_total (db : Db) (name : String) (ty : Ty) (d : Data) :
    db.append_column_default name ty d =
      (⟨db.columns ++ [⟨name, ty⟩], db.rows.map (fun row => row ++ [d])⟩,
       .ok (.Ok db.columns.length))
    ∧ db.append_column name ty = db.append_column_default name ty .null := by
  constructor
  · simp [Db.append_column_default]
  · rfl

/-- C7: `delete_column_by_name` removes the first (lowest-index) column
whose name equals the argument exactly, removes the value at that position
from every row, and returns the former index; it fails with `NotFound`
when no column name matches. -/
theorem C7_delete_column_by_name_contract :
    (∀ (db : Db) (name : String), (∀ c ∈ db.columns, c.name ≠ name) →
        db.delete_column_by_name name = some (db, .error .NotFound))
    ∧ (∀ (db : Db) (name : String) (i : Nat) (hi : i < db.columns.length),
        shapeOk db →
        (db.columns[i]).name = name →
        (∀ (j : Nat), (hj : j < i) → (db.columns[j]).name ≠ name) →
        db.delete_column_by_name name =
          some (⟨db.columns.eraseIdx i, db.rows.map (fun row => row.eraseIdx i)⟩,
                .ok (.Ok i))) := by
  constructor
  · intro db name h
    unfold Db.delete_column_by_name
    rw [findColumn_eq_none 0 h]
  · intro db name i hi hshape hname hfirst
    unfold Db.delete_column_by_name
    rw [findColumn_eq_some 0 hi hname hfirst]
    simp only [Nat.zero_add]
    rw [mapM_vecRemove_of (fun r hr => by rw [hshape r hr]; exact hi)]

/-- Instantiation of C7 at the duplicate-name table: with two columns both
named `X`, only the first occurrence is removed. -/
theorem C7_witness :
    (shapeOk dupXDb ∧ (dupXDb.columns.get ⟨0, by decide⟩).name = "X")
    ∧ dupXDb.delete_column_by_name "X"
        = some (⟨[⟨"X", Ty.Int⟩], []⟩, .ok (.Ok 0)) :=
  ⟨⟨by decide, by rfl⟩,
   C7_delete_column_by_name_contract.2 dupXDb "X" 0 (by decide) (by decide)
     (by rfl) (fun j hj => absurd hj (Nat.not_lt_zero j))⟩

/-- C8: `query` forwards each `Instruction` variant to the corresponding
direct method, returning the identical result and post-state. -/
theorem C8_query_forwards (db : Db) :
    (∀ name, db.query (.DeleteColumn (.Name name)) = db.delete_column_by_name name)
    ∧ (∀ i, db.query (.DeleteColumn (.Index i)) = db.delete_column_by_index i)
    ∧ (∀ i, db.query (.DeleteRow i) = some (db.delete_row_by_index i))
    ∧ (∀ data, db.query (.AppendRow data) = some (db.append_row data))
    ∧ (∀ name ty, db.query (.AppendColumn name ty) = some (db.append_column name ty))
    ∧ (∀ a b, db.query (.Fetch a b) = db.fetch_value a b) :=
  ⟨fun _ => rfl, fun _ => rfl, fun _ => rfl, fun _ => rfl, fun _ _ => rfl,
   fun _ _ => rfl⟩

/-- C9: the type projection of values is total and pure: each `Data`
variant maps to its own `Ty` tag and the null marker projects to the
Text/String type. -/
theorem C9_get_type_total :
    (∀ v : Int, (Data.int v).get_type = Ty.Int)
    ∧ (∀ v : Int, (Data.long v).get_type = Ty.Long)
    ∧ (∀ b : Nat, (Data.float b).get_type = Ty.Float)
    ∧ (∀ b : Nat, (Data.double b).get_type = Ty.Double)
    ∧ (∀ s : String, (Data.string s).get_type = Ty.String)
    ∧ Data.null.get_type = Ty.String :=
  ⟨fun _ => rfl, fun _ => rfl, fun _ => rfl, fun _ => rfl, fun _ => rfl, rfl⟩

/-- C10: `fetch_value` never modifies the table — whenever the call returns,
with a success or with an error, the state it hands back is exactly the
state it was given. -/
theorem C10_fetch_value_readonly (db db' : Db) (a b : Nat) (r : QueryResult)
    (h : db.fetch_value a b = some (db', r)) : db' = db :=
  fetch_value_fst h

/-- Instantiation of C10 at the demonstration table. -/
theorem C10_witness :
    johnDb.fetch_value 0 0 = some (johnDb, .ok (.OkSingle (.string "John")))
      ∧ johnDb = johnDb :=
  ⟨by rfl,
   C10_fetch_value_readonly johnDb johnDb 0 0 (.ok (.OkSingle (.string "John")))
     (by rfl)⟩

end Tora
